import Mathlib

/-!
Shallow embedding of the experience caches, the worker/learner batch
adjustment and the IMPALA V-trace computation of the adeptRL repository,
together with theorems settling the frozen claims about them.

Python dicts with string keys are modelled as association lists
`List (String × _)`; numpy arrays indexed by a write cursor are modelled as
functions `ℕ → Option _` (`none` standing for an uninitialized `np.empty`
slot); real-valued tensors are modelled elementwise over `ℝ` (one
environment column: tensors of shape `[seq]` become `List ℝ`); raising an
exception is modelled with `Except`.
-/

namespace Adept

/-! ### Association-list (Python dict) helpers -/

/-- The keys of a dict, in insertion order. -/
def dictKeys {V : Type} (d : List (String × V)) : List String :=
  d.map Prod.fst

/-- Python `k in self` membership test on a dict. -/
def dictMem {V : Type} (d : List (String × V)) (k : String) : Bool :=
  (dictKeys d).contains k

/-- Python `self[k]` with a default for a missing key (first match wins). -/
def dictGetD {V : Type} : List (String × V) → String → V → V
  | [], _, dflt => dflt
  | (k0, v) :: rest, k, dflt => if k0 = k then v else dictGetD rest k dflt

/-- In-place mutation `self[k] = f(self[k])` of a dict entry. -/
def dictUpdate {V : Type} (d : List (String × V)) (k : String) (f : V → V) :
    List (String × V) :=
  d.map (fun kv => if kv.1 = k then (kv.1, f kv.2) else kv)

theorem dictUpdate_nil {V : Type} (k : String) (f : V → V) :
    dictUpdate ([] : List (String × V)) k f = [] := rfl

theorem dictUpdate_cons {V : Type} (k1 : String) (v1 : V)
    (tl : List (String × V)) (k : String) (f : V → V) :
    dictUpdate ((k1, v1) :: tl) k f =
      (if k1 = k then (k1, f v1) else (k1, v1)) :: dictUpdate tl k f := by
  by_cases h : k1 = k <;> simp [dictUpdate, h]

theorem dictKeys_dictUpdate {V : Type} (d : List (String × V)) (k : String)
    (f : V → V) : dictKeys (dictUpdate d k f) = dictKeys d := by
  induction d with
  | nil => rfl
  | cons hd tl ih =>
      obtain ⟨k1, v1⟩ := hd
      rw [dictUpdate_cons]
      by_cases h : k1 = k <;> simp [dictKeys, h, ih] <;>
        simpa [dictKeys] using ih

theorem dictMem_dictUpdate {V : Type} (d : List (String × V)) (k k0 : String)
    (f : V → V) : dictMem (dictUpdate d k0 f) k = dictMem d k := by
  simp [dictMem, dictKeys_dictUpdate]

theorem dictGetD_dictUpdate_self {V : Type} (d : List (String × V))
    (k : String) (f : V → V) (dflt : V) (h : dictMem d k = true) :
    dictGetD (dictUpdate d k f) k dflt = f (dictGetD d k dflt) := by
  induction d with
  | nil => simp [dictMem, dictKeys] at h
  | cons hd tl ih =>
      obtain ⟨k1, v1⟩ := hd
      rw [dictUpdate_cons]
      by_cases hk : k1 = k
      · subst hk
        rw [if_pos rfl]
        simp [dictGetD]
      · have h2 : dictMem tl k = true := by
          simp only [dictMem, dictKeys, List.map_cons, List.contains_cons,
            Bool.or_eq_true, beq_iff_eq] at h
          rcases h with h1 | h1
          · exact absurd h1.symm hk
          · simpa [dictMem, dictKeys] using h1
        rw [if_neg hk]
        simp only [dictGetD, if_neg hk]
        exact ih h2

theorem dictGetD_dictUpdate_ne {V : Type} (d : List (String × V))
    (k k0 : String) (f : V → V) (dflt : V) (h : k0 ≠ k) :
    dictGetD (dictUpdate d k0 f) k dflt = dictGetD d k dflt := by
  induction d with
  | nil => rfl
  | cons hd tl ih =>
      obtain ⟨k1, v1⟩ := hd
      rw [dictUpdate_cons]
      by_cases hk : k1 = k0
      · subst hk
        rw [if_pos rfl]
        simp only [dictGetD, if_neg h]
        exact ih
      · rw [if_neg hk]
        by_cases hk2 : k1 = k
        · simp only [dictGetD, if_pos hk2]
        · simp only [dictGetD, if_neg hk2]
          exact ih

theorem dictMem_append_self {V : Type} (d : List (String × V)) (k : String)
    (v : V) : dictMem (d ++ [(k, v)]) k = true := by
  simp [dictMem, dictKeys]

/-! ### ACRollout (adept/expcaches/rollout.py)

`ACRollout(dict)`: a dict from field name to the list of per-step values,
plus the configured horizon `nb_rollout` and the reward normalizer.  All
stored values (observations, rewards, terminals, ...) live in one opaque
value type `V`, as in the dynamically typed source. -/

structure ACRollout (V : Type) where
  entries : List (String × List V)
  nb_rollout : ℕ
  reward_normalizer : V → V

namespace ACRollout

/-- `ACRollout.__init__`: the six pre-declared empty field sequences. -/
def init (V : Type) (nb_rollout : ℕ) (reward_normalizer : V → V) :
    ACRollout V :=
  { entries := [("states", []), ("rewards", []), ("terminals", []),
                ("values", []), ("log_probs", []), ("entropies", [])]
    nb_rollout := nb_rollout
    reward_normalizer := reward_normalizer }

/-- `ACRollout.write_forward`: append each supplied auxiliary field value to
its pre-declared sequence; a key not already in the dict raises
`KeyError(f'Incompatible rollout key: {k}')`, modelled as `Except.error`. -/
def write_forward {V : Type} (c : ACRollout V)
    (experience : List (String × V)) : Except String (ACRollout V) :=
  match experience with
  | [] => Except.ok c
  | (k, v) :: rest =>
      if dictMem c.entries k then
        write_forward
          { c with entries := dictUpdate c.entries k (fun l => l ++ [v]) }
          rest
      else
        Except.error ("Incompatible rollout key: " ++ k)

/-- `ACRollout.write_env`: normalize the reward, then append to the
`states`, `rewards` and `terminals` sequences. -/
def write_env {V : Type} (c : ACRollout V) (obs reward terminal : V) :
    ACRollout V :=
  let r := c.reward_normalizer reward
  { c with
    entries :=
      dictUpdate
        (dictUpdate (dictUpdate c.entries "states" (fun l => l ++ [obs]))
          "rewards" (fun l => l ++ [r]))
        "terminals" (fun l => l ++ [terminal]) }

/-- `ACRollout.clear`: reset every field sequence to the empty list. -/
def clear {V : Type} (c : ACRollout V) : ACRollout V :=
  { c with entries := c.entries.map (fun kv => (kv.1, ([] : List V))) }

/-- `ACRollout.__len__`: the length of the `rewards` sequence. -/
def len {V : Type} (c : ACRollout V) : ℕ :=
  (dictGetD c.entries "rewards" []).length

/-- `ACRollout.is_ready`: `len(self) == self.nb_rollout`. -/
def is_ready {V : Type} (c : ACRollout V) : Bool :=
  c.len == c.nb_rollout

end ACRollout

/-- A sequence of consecutive `write_env` calls, one per
`(obs, reward, terminal)` triple. -/
def acWriteEnvs {V : Type} (c : ACRollout V) (steps : List (V × V × V)) :
    ACRollout V :=
  steps.foldl (fun acc s => acc.write_env s.1 s.2.1 s.2.2) c

/-! ### ExperienceReplay (adept/expcaches/replay.py)

The replay buffer is a dict from field name to a fixed-capacity array
(`np.empty((max_len, nb_env, ...))`), modelled as `ℕ → Option V` indexed by
the write cursor (`none` = uninitialized slot; the `nb_env` data columns of
one slot are folded into one opaque value).  `self.max_len` is the
constructor argument `max_len // nb_env`; the claims are stated against
this stored field. -/

structure ExperienceReplay (V : Type) where
  entries : List (String × (ℕ → Option V))
  nb_env : ℕ
  max_len : ℕ
  batch_size : ℕ
  rollout_len : ℕ
  min_length : ℕ
  current_index : ℕ
  num_inserted : ℕ

namespace ExperienceReplay

/-- `ExperienceReplay.__init__`: pre-creates the `rewards` and `terminals`
arrays; cursor and insertion count start at zero; `min_length = 100`.
`max_len0` is the raw constructor argument before the `// nb_env`. -/
def init (V : Type) (nb_env batch_size rollout_len max_len0 : ℕ) :
    ExperienceReplay V :=
  { entries := [("rewards", fun _ => none), ("terminals", fun _ => none)]
    nb_env := nb_env
    max_len := max_len0 / nb_env
    batch_size := batch_size
    rollout_len := rollout_len
    min_length := 100
    current_index := 0
    num_inserted := 0 }

/-- `ExperienceReplay.write_forward`: for each keyword field, create an
empty array if the key is unknown (silently, printing its shape), then
write the value at the current cursor.  No error path exists. -/
def write_forward {V : Type} (rp : ExperienceReplay V)
    (kwargs : List (String × V)) : ExperienceReplay V :=
  kwargs.foldl
    (fun acc kv =>
      let acc1 :=
        if dictMem acc.entries kv.1 then acc
        else { acc with entries := acc.entries ++ [(kv.1, fun _ => none)] }
      { acc1 with
        entries :=
          dictUpdate acc1.entries kv.1
            (fun arr => Function.update arr acc1.current_index (some kv.2)) })
    rp

/-- The `for k in obs.keys()` loop of `ExperienceReplay.write_env`: store
each observation channel under key `obs-<name>` at the current cursor,
creating the array on first sight of the key. -/
def writeObs {V : Type} (rp : ExperienceReplay V)
    (obs : List (String × V)) : ExperienceReplay V :=
  obs.foldl
    (fun acc kv =>
      let key := "obs-" ++ kv.1
      let acc1 :=
        if dictMem acc.entries key then acc
        else { acc with entries := acc.entries ++ [(key, fun _ => none)] }
      { acc1 with
        entries :=
          dictUpdate acc1.entries key
            (fun arr =>
              Function.update arr acc1.current_index (some kv.2)) })
    rp

/-- `ExperienceReplay.write_env`: store each observation channel (see
`writeObs`), store the reward and the terminal mask (`1 - terminals`, the
subtraction on the opaque tensor being folded into `terminal_mask`) at the
current cursor, then advance the cursor modulo `max_len` and increment the
insertion count. -/
def write_env {V : Type} (rp : ExperienceReplay V)
    (obs : List (String × V)) (reward terminal_mask : V) :
    ExperienceReplay V :=
  let rp1 := rp.writeObs obs
  let rp2 :=
    { rp1 with
      entries :=
        dictUpdate
          (dictUpdate rp1.entries "rewards"
            (fun arr => Function.update arr rp1.current_index (some reward)))
          "terminals"
          (fun arr =>
            Function.update arr rp1.current_index (some terminal_mask)) }
  { rp2 with
    current_index := (rp2.current_index + 1) % rp2.max_len
    num_inserted := rp2.num_inserted + 1 }

/-- `ExperienceReplay.__len__`: `min(self._num_inserted, self.max_len)`. -/
def len {V : Type} (rp : ExperienceReplay V) : ℕ :=
  min rp.num_inserted rp.max_len

/-- `ExperienceReplay.is_ready`: `self._num_inserted > self.min_length`. -/
def is_ready {V : Type} (rp : ExperienceReplay V) : Bool :=
  rp.min_length < rp.num_inserted

/-- The exclusive upper bound `max_ind = len(self) - 2 - self.rollout_len`
from which `_read` draws its start indices (Python int arithmetic, so on
`ℤ`). -/
def read_max_ind {V : Type} (rp : ExperienceReplay V) : ℤ :=
  (rp.len : ℤ) - 2 - (rp.rollout_len : ℤ)

/-- `ExperienceReplay.read`: with the pre-fetch queue held in
`_cached_rollout` (oldest first) and `_read()` abstracted as the fresh
synchronous batch `sync`, return the value produced, the remaining queue,
and whether the `'Cache miss'` fallback path ran.  The cached path is
guarded by `len(self._cached_rollout) > 1`. -/
def read {β : Type} (cached_rollout : List β) (sync : β) :
    β × List β × Bool :=
  if 1 < cached_rollout.length then
    (cached_rollout.headD sync, cached_rollout.tail, false)
  else
    (sync, cached_rollout, true)

end ExperienceReplay

/-- A sequence of consecutive `write_env` calls on the replay buffer. -/
def replayWriteEnvs {V : Type} (rp : ExperienceReplay V)
    (steps : List (List (String × V) × V × V)) : ExperienceReplay V :=
  steps.foldl (fun acc s => acc.write_env s.1 s.2.1 s.2.2) rp

/-! ### Learner batch adjustment (adept/container/workerlearner.py) -/

/-- The `Learner.__init__` adjustment of `nb_learn_batch` against
`nb_worker`: when the configured batch count exceeds the worker count a
warning is logged (second component) and the batch count is reduced to the
worker count; otherwise both are left alone. -/
def learnerInitBatch (nb_learn_batch nb_worker : ℕ) : ℕ × Bool :=
  if nb_worker < nb_learn_batch then (nb_worker, true)
  else (nb_learn_batch, false)

/-! ### Rollout-cache lemmas -/

theorem acr_keys_write_env {V : Type} (c : ACRollout V) (o r t : V) :
    dictKeys (c.write_env o r t).entries = dictKeys c.entries := by
  simp [ACRollout.write_env, dictKeys_dictUpdate]

theorem acr_mem_write_env {V : Type} (c : ACRollout V) (o r t : V)
    (k : String) :
    dictMem (c.write_env o r t).entries k = dictMem c.entries k := by
  simp [dictMem, acr_keys_write_env]

theorem acr_len_write_env {V : Type} (c : ACRollout V) (o r t : V)
    (h : dictMem c.entries "rewards" = true) :
    (c.write_env o r t).len = c.len + 1 := by
  have hmem : dictMem (dictUpdate c.entries "states"
      (fun l => l ++ [o])) "rewards" = true := by
    rwa [dictMem_dictUpdate]
  simp only [ACRollout.write_env, ACRollout.len]
  rw [dictGetD_dictUpdate_ne _ _ _ _ _ (by decide),
    dictGetD_dictUpdate_self _ _ _ _ hmem,
    dictGetD_dictUpdate_ne _ _ _ _ _ (by decide)]
  simp

theorem acr_nb_write_env {V : Type} (c : ACRollout V) (o r t : V) :
    (c.write_env o r t).nb_rollout = c.nb_rollout := rfl

theorem acWriteEnvs_len {V : Type} (steps : List (V × V × V))
    (c : ACRollout V) (h : dictMem c.entries "rewards" = true) :
    (acWriteEnvs c steps).len = c.len + steps.length
    ∧ (acWriteEnvs c steps).nb_rollout = c.nb_rollout := by
  induction steps generalizing c with
  | nil => simp [acWriteEnvs]
  | cons s rest ih =>
      have h2 : dictMem (c.write_env s.1 s.2.1 s.2.2).entries "rewards"
          = true := by rwa [acr_mem_write_env]
      have := ih (c.write_env s.1 s.2.1 s.2.2) h2
      simp only [acWriteEnvs, List.foldl_cons] at this ⊢
      rw [this.1, this.2, acr_len_write_env _ _ _ _ h, acr_nb_write_env]
      refine ⟨by simp only [List.length_cons]; omega, rfl⟩

theorem acr_init_len {V : Type} (n : ℕ) (f : V → V) :
    (ACRollout.init V n f).len = 0 := rfl

theorem acr_init_mem_rewards {V : Type} (n : ℕ) (f : V → V) :
    dictMem (ACRollout.init V n f).entries "rewards" = true := by
  simp [ACRollout.init, dictMem, dictKeys]

theorem acr_clear_len {V : Type} (c : ACRollout V) : c.clear.len = 0 := by
  simp only [ACRollout.clear, ACRollout.len]
  induction c.entries with
  | nil => rfl
  | cons hd tl ih =>
      simp only [List.map_cons, dictGetD]
      by_cases h : hd.1 = "rewards"
      · rw [if_pos h]
        rfl
      · rw [if_neg h]
        exact ih

/-- C7: an `ACRollout` with positive horizon `n` is ready exactly after `n`
consecutive `write_env` calls starting from the freshly-constructed cache
(in particular not after fewer), and `clear` on any state with that horizon
leaves a non-ready cache whose field sequences are all empty. -/
theorem acrollout_horizon_ready_and_clear {V : Type} (n : ℕ) (f : V → V)
    (steps : List (V × V × V)) (c : ACRollout V)
    (hn : 0 < n) (hc : c.nb_rollout = n) :
    ((acWriteEnvs (ACRollout.init V n f) steps).is_ready = true
      ↔ steps.length = n)
    ∧ (steps.length < n →
        (acWriteEnvs (ACRollout.init V n f) steps).is_ready = false)
    ∧ c.clear.is_ready = false
    ∧ ∀ kv ∈ c.clear.entries, kv.2.length = 0 := by
  obtain ⟨hlen, hnb⟩ :=
    acWriteEnvs_len steps (ACRollout.init V n f) (acr_init_mem_rewards n f)
  have hlen2 : (acWriteEnvs (ACRollout.init V n f) steps).len
      = steps.length := by rw [hlen, acr_init_len]; omega
  have hnbval : (acWriteEnvs (ACRollout.init V n f) steps).nb_rollout = n :=
    hnb
  have hready : ((acWriteEnvs (ACRollout.init V n f) steps).is_ready = true)
      ↔ steps.length = n := by
    simp only [ACRollout.is_ready, hlen2, hnbval, beq_iff_eq]
  refine ⟨hready, ?_, ?_, ?_⟩
  · intro hlt
    have hne : ¬ ((acWriteEnvs (ACRollout.init V n f) steps).is_ready
        = true) := by
      rw [hready]; omega
    simpa using hne
  · have : c.clear.nb_rollout = n := hc
    simp [ACRollout.is_ready, acr_clear_len, this]
    omega
  · intro kv hkv
    simp only [ACRollout.clear, List.mem_map] at hkv
    obtain ⟨kv0, _, hkv0⟩ := hkv
    rw [← hkv0]
    rfl

/-- C7 witness: horizon 1, one `write_env` call. -/
theorem acrollout_horizon_ready_and_clear_witness :
    0 < 1 ∧ (ACRollout.init ℕ 1 id).nb_rollout = 1
    ∧ (((acWriteEnvs (ACRollout.init ℕ 1 id) [(0, 0, 0)]).is_ready = true
          ↔ ([((0 : ℕ), (0 : ℕ), (0 : ℕ))].length = 1))
        ∧ ([((0 : ℕ), (0 : ℕ), (0 : ℕ))].length < 1 →
            (acWriteEnvs (ACRollout.init ℕ 1 id) [(0, 0, 0)]).is_ready
              = false)
        ∧ (ACRollout.init ℕ 1 id).clear.is_ready = false
        ∧ ∀ kv ∈ (ACRollout.init ℕ 1 id).clear.entries, kv.2.length = 0) :=
  ⟨Nat.one_pos, rfl,
    acrollout_horizon_ready_and_clear 1 id [(0, 0, 0)]
      (ACRollout.init ℕ 1 id) Nat.one_pos rfl⟩

/-! ### write_forward key handling (claim C8) -/

/-- C8 counterexample: the replay cache does NOT reject an undeclared
field name; `write_forward` with the unknown key `"foo"` returns normally
(its type has no error case, matching the absence of any raise in the
source) and silently creates the new field. -/
theorem replay_write_forward_silently_creates :
    dictMem ((ExperienceReplay.init ℕ 2 4 3 100).write_forward
        [("foo", 5)]).entries "foo" = true
    ∧ dictMem (ExperienceReplay.init ℕ 2 4 3 100).entries "foo" = false := by
  constructor <;> rfl

/-- C8 amended: `ACRollout.write_forward` fails with the
`Incompatible rollout key` error on a field name that was not pre-declared,
while `ExperienceReplay.write_forward` instead silently creates the
missing field (and errors on nothing). -/
theorem write_forward_incompatible_key {V : Type} (c : ACRollout V)
    (rp : ExperienceReplay V) (k : String) (v : V)
    (hk : dictMem c.entries k = false) :
    c.write_forward [(k, v)]
        = Except.error ("Incompatible rollout key: " ++ k)
    ∧ dictMem (rp.write_forward [(k, v)]).entries k = true := by
  constructor
  · simp [ACRollout.write_forward, hk]
  · simp only [ExperienceReplay.write_forward, List.foldl_cons,
      List.foldl_nil]
    by_cases h : dictMem rp.entries k
    · simp only [h, if_true]
      rw [dictMem_dictUpdate]
      exact h
    · simp only [h, Bool.false_eq_true, if_false]
      rw [dictMem_dictUpdate]
      exact dictMem_append_self _ _ _

/-- C8 witness: the concrete unknown key `"foo"`. -/
theorem write_forward_incompatible_key_witness :
    dictMem (ACRollout.init ℕ 1 id).entries "foo" = false
    ∧ ((ACRollout.init ℕ 1 id).write_forward [("foo", 0)]
          = Except.error ("Incompatible rollout key: " ++ "foo")
        ∧ dictMem ((ExperienceReplay.init ℕ 2 4 3 100).write_forward
            [("foo", 0)]).entries "foo" = true) :=
  ⟨rfl, write_forward_incompatible_key (ACRollout.init ℕ 1 id)
    (ExperienceReplay.init ℕ 2 4 3 100) "foo" 0 rfl⟩

/-! ### Learner batch adjustment (claim C9) -/

/-- C9: the `Learner` constructor never fails on a too-large
`nb_learn_batch`; the effective batch count is `min nb_learn_batch
nb_worker` (i.e. reduced to the worker count exactly when it exceeded it,
left unchanged otherwise) and the warning fires exactly in the exceeding
case. -/
theorem learner_batch_auto_reduce (nlb nw : ℕ) :
    (learnerInitBatch nlb nw).1 = min nlb nw
    ∧ ((learnerInitBatch nlb nw).2 = true ↔ nw < nlb)
    ∧ (nlb ≤ nw → (learnerInitBatch nlb nw).1 = nlb) := by
  unfold learnerInitBatch
  by_cases h : nw < nlb
  · rw [if_pos h]
    refine ⟨by simp; omega, by simp [h], by omega⟩
  · rw [if_neg h]
    refine ⟨by simp; omega, by simp [h], fun _ => rfl⟩

/-! ### Replay-buffer cursor invariants (claim C10) -/

theorem replay_writeObs_counters {V : Type} (rp : ExperienceReplay V)
    (obs : List (String × V)) :
    (rp.writeObs obs).num_inserted = rp.num_inserted
    ∧ (rp.writeObs obs).current_index = rp.current_index
    ∧ (rp.writeObs obs).max_len = rp.max_len := by
  induction obs generalizing rp with
  | nil => exact ⟨rfl, rfl, rfl⟩
  | cons kv rest ih =>
      simp only [ExperienceReplay.writeObs, List.foldl_cons] at ih ⊢
      by_cases h : dictMem rp.entries ("obs-" ++ kv.1) <;>
        simp only [h, if_true, Bool.false_eq_true, if_false] <;>
        exact ih _

theorem replay_write_env_counters {V : Type} (rp : ExperienceReplay V)
    (obs : List (String × V)) (r t : V) :
    (rp.write_env obs r t).num_inserted = rp.num_inserted + 1
    ∧ (rp.write_env obs r t).current_index
        = (rp.current_index + 1) % rp.max_len
    ∧ (rp.write_env obs r t).max_len = rp.max_len := by
  obtain ⟨h1, h2, h3⟩ := replay_writeObs_counters rp obs
  simp only [ExperienceReplay.write_env]
  exact ⟨by rw [h1], by rw [h2, h3], h3⟩

theorem replayWriteEnvs_counters {V : Type}
    (steps : List (List (String × V) × V × V)) (rp : ExperienceReplay V) :
    (replayWriteEnvs rp steps).num_inserted
        = rp.num_inserted + steps.length
    ∧ (replayWriteEnvs rp steps).max_len = rp.max_len
    ∧ (0 < rp.max_len → rp.current_index < rp.max_len →
        (replayWriteEnvs rp steps).current_index < rp.max_len) := by
  induction steps generalizing rp with
  | nil => exact ⟨rfl, rfl, fun _ h => h⟩
  | cons s rest ih =>
      obtain ⟨w1, w2, w3⟩ := replay_write_env_counters rp s.1 s.2.1 s.2.2
      obtain ⟨i1, i2, i3⟩ := ih (rp.write_env s.1 s.2.1 s.2.2)
      simp only [replayWriteEnvs, List.foldl_cons] at i1 i2 i3 ⊢
      refine ⟨by rw [i1, w1]; simp only [List.length_cons]; omega,
        by rw [i2, w3], ?_⟩
      intro hmax _
      rw [← w3]
      apply i3
      · rw [w3]; exact hmax
      · rw [w2, w3]; exact Nat.mod_lt _ hmax

/-- C10: every `write_env` call increments the insertion count by exactly
one and advances the cursor by one modulo the capacity `max_len`; over any
sequence of calls the cursor stays below the capacity and the reported
length is `min(insertion count, capacity)`, never exceeding the
capacity. -/
theorem replay_capacity_invariant {V : Type} (rp : ExperienceReplay V)
    (steps : List (List (String × V) × V × V))
    (obs : List (String × V)) (r t : V)
    (hmax : 0 < rp.max_len) (hcur : rp.current_index < rp.max_len) :
    (rp.write_env obs r t).num_inserted = rp.num_inserted + 1
    ∧ (rp.write_env obs r t).current_index
        = (rp.current_index + 1) % rp.max_len
    ∧ (replayWriteEnvs rp steps).num_inserted
        = rp.num_inserted + steps.length
    ∧ (replayWriteEnvs rp steps).current_index < rp.max_len
    ∧ (replayWriteEnvs rp steps).len
        = min (replayWriteEnvs rp steps).num_inserted rp.max_len
    ∧ (replayWriteEnvs rp steps).len ≤ rp.max_len := by
  obtain ⟨w1, w2, _⟩ := replay_write_env_counters rp obs r t
  obtain ⟨i1, i2, i3⟩ := replayWriteEnvs_counters steps rp
  refine ⟨w1, w2, i1, i3 hmax hcur, ?_, ?_⟩
  · rw [ExperienceReplay.len, i2]
  · rw [ExperienceReplay.len, i2]
    exact min_le_right _ _

/-- C10 witness: capacity 3, two buffered steps. -/
theorem replay_capacity_invariant_witness :
    0 < (ExperienceReplay.init ℕ 1 1 1 3).max_len
    ∧ (ExperienceReplay.init ℕ 1 1 1 3).current_index
        < (ExperienceReplay.init ℕ 1 1 1 3).max_len
    ∧ (((ExperienceReplay.init ℕ 1 1 1 3).write_env [("x", 7)] 0 0
          ).num_inserted = (ExperienceReplay.init ℕ 1 1 1 3).num_inserted + 1
        ∧ ((ExperienceReplay.init ℕ 1 1 1 3).write_env [("x", 7)] 0 0
            ).current_index
          = ((ExperienceReplay.init ℕ 1 1 1 3).current_index + 1)
              % (ExperienceReplay.init ℕ 1 1 1 3).max_len
        ∧ (replayWriteEnvs (ExperienceReplay.init ℕ 1 1 1 3)
            [([], 1, 2), ([], 3, 4)]).num_inserted
          = (ExperienceReplay.init ℕ 1 1 1 3).num_inserted + 2
        ∧ (replayWriteEnvs (ExperienceReplay.init ℕ 1 1 1 3)
            [([], 1, 2), ([], 3, 4)]).current_index
          < (ExperienceReplay.init ℕ 1 1 1 3).max_len
        ∧ (replayWriteEnvs (ExperienceReplay.init ℕ 1 1 1 3)
            [([], 1, 2), ([], 3, 4)]).len
          = min (replayWriteEnvs (ExperienceReplay.init ℕ 1 1 1 3)
              [([], 1, 2), ([], 3, 4)]).num_inserted
              (ExperienceReplay.init ℕ 1 1 1 3).max_len
        ∧ (replayWriteEnvs (ExperienceReplay.init ℕ 1 1 1 3)
            [([], 1, 2), ([], 3, 4)]).len
          ≤ (ExperienceReplay.init ℕ 1 1 1 3).max_len) :=
  ⟨Nat.zero_lt_succ 2, Nat.zero_lt_succ 2,
    replay_capacity_invariant (ExperienceReplay.init ℕ 1 1 1 3)
      [([], 1, 2), ([], 3, 4)] [("x", 7)] 0 0
      (Nat.zero_lt_succ 2) (Nat.zero_lt_succ 2)⟩

/-! ### Replay sampling range (claim C5) -/

/-- C5: when the buffer length `L` exceeds `rollout_len + 2`, the start
index range of `_read` is exactly `[0, L - rollout_len - 2)` and is
non-empty, and every sampled window has end index at most `L - 2` with the
extra next-observation access at `end index + 1` strictly inside the valid
range `[0, L)` of stored transitions. -/
theorem replay_read_window_safe {V : Type} (rp : ExperienceReplay V)
    (s : ℤ) (hL : (rp.rollout_len : ℤ) + 2 < (rp.len : ℤ))
    (hs0 : 0 ≤ s) (hs : s < rp.read_max_ind) :
    rp.read_max_ind = (rp.len : ℤ) - (rp.rollout_len : ℤ) - 2
    ∧ 0 < rp.read_max_ind
    ∧ s + (rp.rollout_len : ℤ) ≤ (rp.len : ℤ) - 2
    ∧ 0 ≤ s + (rp.rollout_len : ℤ) + 1
    ∧ s + (rp.rollout_len : ℤ) + 1 < (rp.len : ℤ) := by
  unfold ExperienceReplay.read_max_ind at hs ⊢
  omega

/-- A filled replay state (length 10, rollout length 2) used to witness the
sampling-range theorem. -/
def replayFullState : ExperienceReplay ℕ :=
  { entries := [], nb_env := 1, max_len := 10, batch_size := 4,
    rollout_len := 2, min_length := 100, current_index := 0,
    num_inserted := 10 }

/-- C5 witness: length 10, rollout length 2, start index 3. -/
theorem replay_read_window_safe_witness :
    ((replayFullState.rollout_len : ℤ) + 2 < (replayFullState.len : ℤ))
    ∧ ((0 : ℤ) ≤ 3) ∧ ((3 : ℤ) < replayFullState.read_max_ind)
    ∧ (replayFullState.read_max_ind
          = (replayFullState.len : ℤ)
            - (replayFullState.rollout_len : ℤ) - 2
      ∧ 0 < replayFullState.read_max_ind
      ∧ (3 : ℤ) + (replayFullState.rollout_len : ℤ)
          ≤ (replayFullState.len : ℤ) - 2
      ∧ (0 : ℤ) ≤ 3 + (replayFullState.rollout_len : ℤ) + 1
      ∧ (3 : ℤ) + (replayFullState.rollout_len : ℤ) + 1
          < (replayFullState.len : ℤ)) := by
  refine ⟨?_, by norm_num, ?_, replay_read_window_safe replayFullState 3
    ?_ (by norm_num) ?_⟩ <;>
    norm_num [replayFullState, ExperienceReplay.len,
      ExperienceReplay.read_max_ind]

/-! ### Replay pre-fetch consumption (claim C6) -/

/-- C6 counterexample: with exactly one batch in the pre-fetch queue (a
non-empty queue), `read` does not return the queued batch; it takes the
synchronous `'Cache miss'` fallback, because the cached path requires
`len(self._cached_rollout) > 1`. -/
theorem replay_read_single_batch_misses :
    ExperienceReplay.read [7] (3 : ℕ) = (3, [7], true)
    ∧ ([7] : List ℕ) ≠ [] := by
  constructor
  · rfl
  · simp

/-- C6 amended: `read` pops the oldest pre-computed batch only when the
pre-fetch queue holds more than one batch; with one or zero queued batches
it takes the synchronous cache-miss fallback. -/
theorem replay_read_cache_policy {β : Type} (cached : List β) (sync : β) :
    (1 < cached.length →
      ExperienceReplay.read cached sync
        = (cached.headD sync, cached.tail, false))
    ∧ (cached.length ≤ 1 →
      ExperienceReplay.read cached sync = (sync, cached, true)) := by
  constructor
  · intro h
    rw [ExperienceReplay.read, if_pos h]
  · intro h
    rw [ExperienceReplay.read, if_neg (by omega)]

/-- C6 witness: a two-batch queue pops the oldest batch. -/
theorem replay_read_cache_policy_witness :
    (1 < ([5, 6] : List ℕ).length)
    ∧ ExperienceReplay.read [5, 6] (0 : ℕ) = (5, [6], false) :=
  ⟨by norm_num, (replay_read_cache_policy [5, 6] 0).1 (by norm_num)⟩

/-! ### IMPALA V-trace (adept/learner/impala.py)

`_vtrace_returns` over one environment column: tensors of shape
`[seq, batch]` become `List ℝ` for one fixed batch element (the
elementwise tensor algebra acts per column), floating point becoming exact
reals.  The multi-action `dim() == 3` branches do not arise in this
single-action model.  Raising `NotImplementedError` is `Except.error ()`. -/

/-- `importance = torch.exp(log_prob_diffs)`, elementwise. -/
noncomputable def importance (log_prob_diffs : List ℝ) : List ℝ :=
  log_prob_diffs.map Real.exp

/-- `Tensor.clamp(max=m)` elementwise: an upper clamp (ceiling) at `m`,
despite the `minimum_importance_*` names of the arguments fed to it. -/
noncomputable def clampMax (xs : List ℝ) (m : ℝ) : List ℝ :=
  xs.map (fun x => min x m)

/-- `diff_value_per_step = clamped_importance_value * (rewards +
discount_terminal_mask * values_t_plus_1 - values)` where
`values_t_plus_1 = torch.cat((values[1:], estimated_value.unsqueeze(0)))`
(the one-step TD errors weighted by the value-clamped ratio). -/
noncomputable def diff_value_per_step
    (civ discount_terminal_mask rewards values : List ℝ)
    (estimated_value : ℝ) : List ℝ :=
  List.zipWith (· * ·) civ
    (List.zipWith (· - ·)
      (List.zipWith (· + ·) rewards
        (List.zipWith (· * ·) discount_terminal_mask
          (values.drop 1 ++ [estimated_value])))
      values)

/-- The `for i in reversed(range(...))` accumulation loop of
`_vtrace_returns`: `nstep_v` starts at `0.0` and each step sets
`nstep_v = diff_value_per_step[i] + discount_terminal_mask[i] *
clamped_importance_value[i] * nstep_v`; the appended values, reversed back
to forward time order, form `vs_minus_v_xs`.  Each list element is the
triple `(diff_value_per_step[i], discount_terminal_mask[i],
clamped_importance_value[i])`. -/
noncomputable def vtraceLoop : List (ℝ × ℝ × ℝ) → List ℝ
  | [] => []
  | (dlt, dm, c) :: rest =>
      (dlt + dm * c * (vtraceLoop rest).headD 0) :: vtraceLoop rest

open Classical in
/-- Shallow embedding of `ImpalaLearner._vtrace_returns`.  Returns
`(v_s, weighted_advantage, importance)` on the unit-clamp configuration
and the `NotImplementedError` branch otherwise. -/
noncomputable def vtrace_returns
    (log_prob_diffs discount_terminal_mask rewards values : List ℝ)
    (estimated_value minimum_importance_value minimum_importance_policy :
      ℝ) : Except Unit (List ℝ × List ℝ × List ℝ) :=
  let imp := importance log_prob_diffs
  let clamped_importance_value := clampMax imp minimum_importance_value
  let dvps := diff_value_per_step clamped_importance_value
    discount_terminal_mask rewards values estimated_value
  if minimum_importance_policy ≠ 1 ∨ minimum_importance_value ≠ 1 then
    Except.error ()
  else
    let vs_minus_v_xs := vtraceLoop
      (dvps.zip (discount_terminal_mask.zip clamped_importance_value))
    let v_s := List.zipWith (· + ·) values vs_minus_v_xs
    let clamped_importance_pg := clampMax imp minimum_importance_policy
    let v_s_tp1 := v_s.drop 1 ++ [estimated_value]
    let advantage := List.zipWith (· - ·)
      (List.zipWith (· + ·) rewards
        (List.zipWith (· * ·) discount_terminal_mask v_s_tp1)) values
    let weighted_advantage := List.zipWith (· * ·) clamped_importance_pg
      advantage
    Except.ok (v_s, weighted_advantage, imp)

/-! ### V-trace claims C3 and C4 -/

/-- C3: any clamp configuration with `minimum_importance_value ≠ 1` or
`minimum_importance_policy ≠ 1` makes `_vtrace_returns` raise
`NotImplementedError`; no result is ever silently computed there. -/
theorem vtrace_nonunit_clamp_raises
    (ds dmask rewards values : List ℝ) (b miv mip : ℝ)
    (h : miv ≠ 1 ∨ mip ≠ 1) :
    vtrace_returns ds dmask rewards values b miv mip
      = Except.error () := by
  simp only [vtrace_returns]
  rw [if_pos (Or.symm h)]

/-- C3 witness: `minimum_importance_value = 2`. -/
theorem vtrace_nonunit_clamp_raises_witness :
    ((2 : ℝ) ≠ 1 ∨ (1 : ℝ) ≠ 1)
    ∧ vtrace_returns [0] [0] [1] [0] 5 2 1 = Except.error () :=
  ⟨Or.inl (by norm_num),
    vtrace_nonunit_clamp_raises [0] [0] [1] [0] 5 2 1
      (Or.inl (by norm_num))⟩

theorem clampMax_getD (ds : List ℝ) (m : ℝ) (i : ℕ) (hi : i < ds.length) :
    (clampMax (importance ds) m).getD i 0
      = min (Real.exp (ds.getD i 0)) m := by
  induction ds generalizing i with
  | nil => simp at hi
  | cons d dt ih =>
      cases i with
      | zero => rfl
      | succ j =>
          have hj : j < dt.length := by simpa using hi
          simpa [clampMax, importance, List.getD_cons_succ] using ih j hj

/-- C4: the importance ratio is `exp` of the log-prob difference, and the
two clamps applied to it inside `_vtrace_returns` are ceilings at the two
independently configurable parameters `minimum_importance_value` (value
target) and `minimum_importance_policy` (policy gradient) — maximum
clamps despite the `minimum_*` names: each clamped entry is
`min(ratio, ceiling)`, never exceeds its ceiling, and passes through
unchanged whenever the ratio is at most the ceiling. -/
theorem vtrace_importance_clamp (ds : List ℝ) (mV mP : ℝ) (i : ℕ)
    (hi : i < ds.length) :
    (clampMax (importance ds) mV).getD i 0
        = min (Real.exp (ds.getD i 0)) mV
    ∧ (clampMax (importance ds) mV).getD i 0 ≤ mV
    ∧ (Real.exp (ds.getD i 0) ≤ mV →
        (clampMax (importance ds) mV).getD i 0 = Real.exp (ds.getD i 0))
    ∧ (clampMax (importance ds) mP).getD i 0
        = min (Real.exp (ds.getD i 0)) mP
    ∧ (clampMax (importance ds) mP).getD i 0 ≤ mP
    ∧ (Real.exp (ds.getD i 0) ≤ mP →
        (clampMax (importance ds) mP).getD i 0
          = Real.exp (ds.getD i 0)) := by
  have hv := clampMax_getD ds mV i hi
  have hp := clampMax_getD ds mP i hi
  refine ⟨hv, ?_, ?_, hp, ?_, ?_⟩
  · rw [hv]; exact min_le_right _ _
  · intro hle; rw [hv]; exact min_eq_left hle
  · rw [hp]; exact min_le_right _ _
  · intro hle; rw [hp]; exact min_eq_left hle

/-- C4 witness: one log-prob difference 0, ceilings 2 and 3. -/
theorem vtrace_importance_clamp_witness :
    (0 < ([(0 : ℝ)]).length)
    ∧ ((clampMax (importance [(0 : ℝ)]) 2).getD 0 0
          = min (Real.exp (([(0 : ℝ)]).getD 0 0)) 2
      ∧ (clampMax (importance [(0 : ℝ)]) 2).getD 0 0 ≤ 2
      ∧ (Real.exp (([(0 : ℝ)]).getD 0 0) ≤ 2 →
          (clampMax (importance [(0 : ℝ)]) 2).getD 0 0
            = Real.exp (([(0 : ℝ)]).getD 0 0))
      ∧ (clampMax (importance [(0 : ℝ)]) 3).getD 0 0
          = min (Real.exp (([(0 : ℝ)]).getD 0 0)) 3
      ∧ (clampMax (importance [(0 : ℝ)]) 3).getD 0 0 ≤ 3
      ∧ (Real.exp (([(0 : ℝ)]).getD 0 0) ≤ 3 →
          (clampMax (importance [(0 : ℝ)]) 3).getD 0 0
            = Real.exp (([(0 : ℝ)]).getD 0 0))) :=
  ⟨Nat.one_pos, vtrace_importance_clamp [(0 : ℝ)] 2 3 0 Nat.one_pos⟩

/-! ### The forward-time recursion satisfied by the V-trace targets -/

/-- Standard n-step TD(0) bootstrapped returns, following the spec
wording: `v_s[t] = reward[t] + discount_mask[t] * v_s[t+1]` with
`v_s[T+1]` taken as the bootstrap value. -/
def tdReturns (dmask rewards : List ℝ) (bootstrap : ℝ) : List ℝ :=
  match dmask, rewards with
  | dm :: dmt, r :: rt =>
      (r + dm * (tdReturns dmt rt bootstrap).headD bootstrap)
        :: tdReturns dmt rt bootstrap
  | _, _ => []

/-- The general forward-time recursion of the V-trace value targets:
`vs[t] = v[t] + c[t]*(r[t] + dm[t]*v[t+1] - v[t])
+ dm[t]*c[t]*(vs[t+1] - v[t+1])` with `v[T+1] = vs[T+1] = bootstrap`;
proven below to coincide with the reversed accumulation loop of the
source. -/
def vtraceRec (c dmask rewards values : List ℝ) (bootstrap : ℝ) :
    List ℝ :=
  match c, dmask, rewards, values with
  | ch :: ct, dm :: dmt, r :: rt, v :: vt =>
      (v + ch * (r + dm * vt.headD bootstrap - v)
          + dm * ch * ((vtraceRec ct dmt rt vt bootstrap).headD bootstrap
            - vt.headD bootstrap))
        :: vtraceRec ct dmt rt vt bootstrap
  | _, _, _, _ => []

theorem tdReturns_cons (dm r b : ℝ) (dmt rt : List ℝ) :
    tdReturns (dm :: dmt) (r :: rt) b
      = (r + dm * (tdReturns dmt rt b).headD b) :: tdReturns dmt rt b :=
  rfl

theorem vtraceRec_cons (ch dm r v b : ℝ) (ct dmt rt vt : List ℝ) :
    vtraceRec (ch :: ct) (dm :: dmt) (r :: rt) (v :: vt) b
      = (v + ch * (r + dm * vt.headD b - v)
          + dm * ch * ((vtraceRec ct dmt rt vt b).headD b
            - vt.headD b))
        :: vtraceRec ct dmt rt vt b :=
  rfl

theorem vtraceRec_ne_nil (c dmask rewards values : List ℝ) (b : ℝ)
    (hc : c ≠ []) (hdm : dmask ≠ []) (hr : rewards ≠ [])
    (hv : values ≠ []) : vtraceRec c dmask rewards values b ≠ [] := by
  cases c <;> cases dmask <;> cases rewards <;> cases values <;>
    simp_all [vtraceRec]

theorem dvps_cons_cons (ch dm r v v2 b : ℝ) (ct dmt rt vt2 : List ℝ) :
    diff_value_per_step (ch :: ct) (dm :: dmt) (r :: rt)
        (v :: v2 :: vt2) b
      = (ch * (r + dm * v2 - v))
        :: diff_value_per_step ct dmt rt (v2 :: vt2) b :=
  rfl

theorem dvps_singleton (ch dm r v b : ℝ) :
    diff_value_per_step [ch] [dm] [r] [v] b
      = [ch * (r + dm * b - v)] :=
  rfl

theorem dvps_length (c dmask rewards values : List ℝ) (b : ℝ)
    (h1 : dmask.length = c.length) (h2 : rewards.length = c.length)
    (h3 : values.length = c.length) :
    (diff_value_per_step c dmask rewards values b).length = c.length := by
  simp only [diff_value_per_step, List.length_zipWith, List.length_append,
    List.length_drop, List.length_singleton]
  omega

theorem vtraceLoop_cons (dlt dm c : ℝ) (rest : List (ℝ × ℝ × ℝ)) :
    vtraceLoop ((dlt, dm, c) :: rest)
      = (dlt + dm * c * (vtraceLoop rest).headD 0) :: vtraceLoop rest :=
  rfl

theorem vtraceLoop_length (l : List (ℝ × ℝ × ℝ)) :
    (vtraceLoop l).length = l.length := by
  induction l with
  | nil => rfl
  | cons a rest ih =>
      obtain ⟨dlt, dm, c⟩ := a
      simp [vtraceLoop_cons, ih]

theorem getLast?_cons_of_ne_nil {α : Type} (a : α) (l : List α)
    (h : l ≠ []) : (a :: l).getLast? = l.getLast? := by
  cases l with
  | nil => exact absurd rfl h
  | cons b t => exact List.getLast?_cons_cons

/-- The reversed accumulation loop, fed the TD errors and zipped masks and
clamped ratios, added back onto the value estimates, satisfies the
forward-time V-trace recursion `vtraceRec`. -/
theorem vtrace_vs_eq_rec (c dmask rewards values : List ℝ) (b : ℝ)
    (h1 : dmask.length = c.length) (h2 : rewards.length = c.length)
    (h3 : values.length = c.length) :
    List.zipWith (· + ·) values
      (vtraceLoop ((diff_value_per_step c dmask rewards values b).zip
        (dmask.zip c)))
      = vtraceRec c dmask rewards values b := by
  induction c generalizing dmask rewards values with
  | nil =>
      obtain rfl : dmask = [] := List.length_eq_zero.mp (by simpa using h1)
      obtain rfl : rewards = [] :=
        List.length_eq_zero.mp (by simpa using h2)
      obtain rfl : values = [] := List.length_eq_zero.mp (by simpa using h3)
      rfl
  | cons ch ct ih =>
      cases dmask with
      | nil => simp at h1
      | cons dm dmt =>
      cases rewards with
      | nil => simp at h2
      | cons r rt =>
      cases values with
      | nil => simp at h3
      | cons v vt =>
      simp only [List.length_cons, add_left_inj] at h1 h2 h3
      cases vt with
      | nil =>
          obtain rfl : ct = [] :=
            List.length_eq_zero.mp (by simpa using h3.symm)
          obtain rfl : dmt = [] := List.length_eq_zero.mp (by simpa using h1)
          obtain rfl : rt = [] := List.length_eq_zero.mp (by simpa using h2)
          simp [dvps_singleton, vtraceLoop_cons, vtraceRec_cons, vtraceRec,
            vtraceLoop]
      | cons v2 vt2 =>
      cases ct with
      | nil => simp at h3
      | cons c2 ct2 =>
      cases dmt with
      | nil => simp at h1
      | cons dm2 dmt2 =>
      cases rt with
      | nil => simp at h2
      | cons r2 rt2 =>
      have ihx := ih (dm2 :: dmt2) (r2 :: rt2) (v2 :: vt2)
        (by simpa using h1) (by simpa using h2) (by simpa using h3)
      rw [dvps_cons_cons, List.zip_cons_cons, List.zip_cons_cons,
        vtraceLoop_cons, vtraceRec_cons, List.zipWith_cons_cons]
      have hlen : (vtraceLoop
          ((diff_value_per_step (c2 :: ct2) (dm2 :: dmt2) (r2 :: rt2)
            (v2 :: vt2) b).zip
              ((dm2 :: dmt2).zip (c2 :: ct2)))).length
          = vt2.length + 1 := by
        rw [vtraceLoop_length, List.length_zip, List.length_zip,
          dvps_length _ _ _ _ _ (by simpa using h1)
            (by simpa using h2) (by simpa using h3)]
        simp only [List.length_cons] at h1 h2 h3 ⊢
        omega
      cases hLt : vtraceLoop
          ((diff_value_per_step (c2 :: ct2) (dm2 :: dmt2) (r2 :: rt2)
            (v2 :: vt2) b).zip ((dm2 :: dmt2).zip (c2 :: ct2))) with
      | nil => rw [hLt] at hlen; simp at hlen
      | cons lt1 ltt =>
          rw [hLt] at ihx
          rw [List.zipWith_cons_cons] at ihx
          rw [vtraceRec_cons] at ihx ⊢
          have hhead := (List.cons.injEq _ _ _ _).mp ihx
          rw [List.cons.injEq]
          constructor
          · simp only [List.headD_cons]
            rw [← hhead.1]
            ring
          · exact ihx

/-! ### Claim C2: on-policy V-trace = n-step TD(0) returns -/

theorem vtraceRec_ones (n : ℕ) (dmask rewards values : List ℝ) (b : ℝ)
    (hn : n = dmask.length) (h2 : rewards.length = dmask.length)
    (h3 : values.length = dmask.length) :
    vtraceRec (List.replicate n 1) dmask rewards values b
      = tdReturns dmask rewards b := by
  subst hn
  induction dmask generalizing rewards values with
  | nil =>
      obtain rfl : rewards = [] := List.length_eq_zero.mp (by simpa using h2)
      obtain rfl : values = [] := List.length_eq_zero.mp (by simpa using h3)
      rfl
  | cons dm dmt ih =>
      cases rewards with
      | nil => simp at h2
      | cons r rt =>
      cases values with
      | nil => simp at h3
      | cons v vt =>
      simp only [List.length_cons, List.replicate_succ]
      rw [vtraceRec_cons, tdReturns_cons,
        ih rt vt (by simpa using h2) (by simpa using h3)]
      rw [List.cons.injEq]
      exact ⟨by ring, rfl⟩

theorem clampMax_one_of_zeros (ds : List ℝ) (h0 : ∀ x ∈ ds, x = 0) :
    clampMax (importance ds) 1 = List.replicate ds.length 1 := by
  induction ds with
  | nil => rfl
  | cons d dt ih =>
      have hd : d = 0 := h0 d (List.mem_cons_self d dt)
      simp only [importance, clampMax, List.map_cons, List.length_cons,
        List.replicate_succ, List.cons.injEq]
      refine ⟨by rw [hd, Real.exp_zero, min_self], ?_⟩
      have := ih (fun x hx => h0 x (List.mem_cons_of_mem d hx))
      simpa [importance, clampMax] using this

/-- C2: when every log-prob difference is zero (all importance ratios equal
one) and both clamps are 1, the V-trace value targets are exactly the
standard n-step TD(0) bootstrapped returns `v_s[t] = reward[t] +
discount_mask[t] * v_s[t+1]`, with `v_s[T+1]` the bootstrap value. -/
theorem vtrace_onpolicy_eq_td (ds dmask rewards values : List ℝ) (b : ℝ)
    (h1 : dmask.length = ds.length) (h2 : rewards.length = ds.length)
    (h3 : values.length = ds.length) (h0 : ∀ x ∈ ds, x = 0) :
    (vtrace_returns ds dmask rewards values b 1 1).map Prod.fst
      = Except.ok (tdReturns dmask rewards b) := by
  have hciv : clampMax (importance ds) 1 = List.replicate ds.length 1 :=
    clampMax_one_of_zeros ds h0
  simp only [vtrace_returns]
  rw [if_neg (by simp)]
  simp only [Except.map]
  rw [hciv, vtrace_vs_eq_rec (List.replicate ds.length 1) dmask rewards
      values b (by simpa using h1) (by simpa using h2) (by simpa using h3),
    vtraceRec_ones ds.length dmask rewards values b h1.symm
      (h2.trans h1.symm) (h3.trans h1.symm)]

/-- C2 witness: a length-one on-policy rollout. -/
theorem vtrace_onpolicy_eq_td_witness :
    ([(1 : ℝ)].length = [(0 : ℝ)].length)
    ∧ ([(2 : ℝ)].length = [(0 : ℝ)].length)
    ∧ ([(3 : ℝ)].length = [(0 : ℝ)].length)
    ∧ (∀ x ∈ [(0 : ℝ)], x = 0)
    ∧ (vtrace_returns [0] [1] [2] [3] 4 1 1).map Prod.fst
        = Except.ok (tdReturns [1] [2] 4) :=
  ⟨rfl, rfl, rfl, by simp,
    vtrace_onpolicy_eq_td [0] [1] [2] [3] 4 rfl rfl rfl (by simp)⟩

/-! ### Claim C1: the V-trace target at the final step -/

theorem vtraceRec_getLast (cs dms rs vs : List ℝ) (cL dmL rL vL b : ℝ)
    (h1 : dms.length = cs.length) (h2 : rs.length = cs.length)
    (h3 : vs.length = cs.length) :
    (vtraceRec (cs ++ [cL]) (dms ++ [dmL]) (rs ++ [rL]) (vs ++ [vL])
        b).getLast?
      = some (vL + cL * (rL + dmL * b - vL) + dmL * cL * (b - b)) := by
  induction cs generalizing dms rs vs with
  | nil =>
      obtain rfl : dms = [] := List.length_eq_zero.mp (by simpa using h1)
      obtain rfl : rs = [] := List.length_eq_zero.mp (by simpa using h2)
      obtain rfl : vs = [] := List.length_eq_zero.mp (by simpa using h3)
      rfl
  | cons c1 ct ih =>
      cases dms with
      | nil => simp at h1
      | cons d1 dmt =>
      cases rs with
      | nil => simp at h2
      | cons r1 rt =>
      cases vs with
      | nil => simp at h3
      | cons v1 vt =>
      simp only [List.cons_append]
      rw [vtraceRec_cons,
        getLast?_cons_of_ne_nil _ _
          (vtraceRec_ne_nil _ _ _ _ _ (by simp) (by simp) (by simp)
            (by simp))]
      exact ih dmt rt vt (by simpa using h1) (by simpa using h2)
        (by simpa using h3)

/-- C1 counterexample: a single-step rollout with final log-prob
difference `-1` (final importance ratio `exp (-1) < 1`, a valid ratio) and
both clamps 1.  The claim demands final target `reward + discount_mask *
bootstrap = 1 + 0 * 5 = 1`, but the code produces `exp (-1)`, because the
final TD error stays weighted by the clamped final ratio. -/
theorem vtrace_final_step_counterexample :
    (vtrace_returns [-1] [0] [1] [0] 5 1 1).map Prod.fst
        = Except.ok [Real.exp (-1)]
    ∧ Real.exp (-1) ≠ 1 + 0 * 5 := by
  have hlt : Real.exp (-1) < 1 := Real.exp_lt_one_iff.mpr (by norm_num)
  constructor
  · simp only [vtrace_returns]
    rw [if_neg (by simp)]
    simp only [Except.map]
    simp [importance, clampMax, diff_value_per_step, vtraceLoop,
      min_eq_left hlt.le]
  · rw [show (1 : ℝ) + 0 * 5 = 1 by ring]
    exact ne_of_lt hlt

/-- C1 amended: at the final step `T` the V-trace target equals
`values[T] + c[T] * (reward[T] + discount_mask[T] * bootstrap -
values[T])` with `c[T] = min(ratio[T], 1)` the clamped final ratio; it
reduces to `reward[T] + discount_mask[T] * bootstrap` whenever the final
importance ratio is at least 1 (final log-prob difference ≥ 0, the clamp
then saturating at 1) — not for every valid final ratio. -/
theorem vtrace_final_step_amended (ds dmask rewards values : List ℝ)
    (d dm r v b : ℝ)
    (h1 : dmask.length = ds.length) (h2 : rewards.length = ds.length)
    (h3 : values.length = ds.length) (hd : 0 ≤ d) :
    (vtrace_returns (ds ++ [d]) (dmask ++ [dm]) (rewards ++ [r])
        (values ++ [v]) b 1 1).map (fun p => p.1.getLast?)
      = Except.ok (some (r + dm * b)) := by
  have hratio : min (Real.exp d) 1 = 1 :=
    min_eq_right (Real.one_le_exp hd)
  have happ : clampMax (importance (ds ++ [d])) 1
      = clampMax (importance ds) 1 ++ [1] := by
    simp [importance, clampMax, hratio]
  simp only [vtrace_returns]
  rw [if_neg (by simp)]
  simp only [Except.map]
  rw [happ, vtrace_vs_eq_rec (clampMax (importance ds) 1 ++ [1])
      (dmask ++ [dm]) (rewards ++ [r]) (values ++ [v]) b
      (by simp [clampMax, importance]; omega)
      (by simp [clampMax, importance]; omega)
      (by simp [clampMax, importance]; omega),
    vtraceRec_getLast (clampMax (importance ds) 1) dmask rewards values
      1 dm r v b (by simp [clampMax, importance, h1])
      (by simp [clampMax, importance, h2])
      (by simp [clampMax, importance, h3])]
  rw [Except.ok.injEq, Option.some.injEq]
  ring

/-- C1-amended witness: empty prefix, final log-prob difference 0. -/
theorem vtrace_final_step_amended_witness :
    (([] : List ℝ).length = ([] : List ℝ).length)
    ∧ ((0 : ℝ) ≤ 0)
    ∧ (vtrace_returns ([] ++ [0]) ([] ++ [(2 : ℝ)]) ([] ++ [(3 : ℝ)])
        ([] ++ [(4 : ℝ)]) 5 1 1).map (fun p => p.1.getLast?)
      = Except.ok (some (3 + 2 * 5)) :=
  ⟨rfl, le_refl 0,
    vtrace_final_step_amended [] [] [] [] 0 2 3 4 5 rfl rfl rfl
      (le_refl 0)⟩

end Adept
